import Mathlib

/-!
Shallow embedding of the adaptive benchmark sweep controller of
src/stockfish/benchmarks/sfbench.py, together with the raw metric
parser of src/stockfish/benchmark.py, and theorems settling the
specification's claims about the improvement test, aggregation,
best-so-far tracking, sweep termination and error propagation.

Numeric metric fields are modelled as rationals (Python's
statistics.mean computes an exact mean of machine integers),
timestamps as integers (epoch instants), and fallible Python code
(exceptions) as Except / Option values.
-/

/-- Parameters of an individual stockfish bench run (class BenchParams,
sfbench.py lines 37-42). -/
structure BenchParams where
  threads : ℚ
  tt_size_mb : ℚ
  depth : ℚ
deriving DecidableEq

/-- Result of a single benchmark run (class BenchResult, sfbench.py
lines 45-51). -/
structure BenchResult where
  nps : ℚ
  nodes_searched : ℚ
  total_time_ms : ℚ
  time : ℤ
deriving DecidableEq

/-- Parameters of a sequence of runs (class SeriesParams, sfbench.py
lines 60-66). -/
structure SeriesParams where
  repetitions : ℕ
  max_failures_to_improve : ℕ
deriving DecidableEq

/-- has_improvement (sfbench.py lines 96-99): a logical OR over the
three metrics. -/
def has_improvement (result best_so_far : BenchResult) : Bool :=
  decide (best_so_far.nps < result.nps) ||
    decide (best_so_far.nodes_searched < result.nodes_searched) ||
    decide (result.total_time_ms < best_so_far.total_time_ms)

/-- get_best_values (sfbench.py lines 102-107): component-wise max for
nps and nodes_searched, min for total_time_ms, and the time of result1
exactly when result1 has the strictly larger nps. -/
def get_best_values (result1 result2 : BenchResult) : BenchResult :=
  { nps := max result1.nps result2.nps,
    nodes_searched := max result1.nodes_searched result2.nodes_searched,
    total_time_ms := min result1.total_time_ms result2.total_time_ms,
    time := if result2.nps < result1.nps then result1.time else result2.time }

/-- get_average_result (sfbench.py lines 89-93): the exact arithmetic
mean of each numeric field and the maximum of the timestamps; none
models the Python crash on an empty input list. -/
def get_average_result (results : List BenchResult) : Option BenchResult :=
  match results with
  | [] => none
  | r :: rs =>
    some {
      nps := ((r :: rs).map BenchResult.nps).sum / ((r :: rs).length : ℚ),
      nodes_searched := ((r :: rs).map BenchResult.nodes_searched).sum / ((r :: rs).length : ℚ),
      total_time_ms := ((r :: rs).map BenchResult.total_time_ms).sum / ((r :: rs).length : ℚ),
      time := rs.foldl (fun acc x => max acc x.time) r.time }

/-- The initial best-so-far tracker of run_series (sfbench.py line 117):
nps 0, nodes_searched 0, total_time_ms 10^12 (a literal large sentinel,
not an infinity), and the sweep start time. -/
def initialBest (startTime : ℤ) : BenchResult :=
  { nps := 0, nodes_searched := 0, total_time_ms := 1000000000000, time := startTime }

/-- Python int of a digit string (int applied to the regexp's digit
group). -/
def digitsToNat (ds : List Char) : ℕ :=
  ds.foldl (fun acc c => 10 * acc + (c.toNat - 48)) 0

/-- The deterministic tail of the line regexp of sfbench.py line 79 and
benchmark.py line 39: after the captured label, whitespace-star, one
colon, whitespace-plus, then a digit group (the rest of the line is
ignored, exactly as re.match does without an end anchor). -/
def restMatch (cs : List Char) : Option ℕ :=
  match cs.dropWhile Char.isWhitespace with
  | ':' :: rs =>
    if (rs.takeWhile Char.isWhitespace).isEmpty then none
    else
      if ((rs.dropWhile Char.isWhitespace).takeWhile Char.isDigit).isEmpty then none
      else some (digitsToNat ((rs.dropWhile Char.isWhitespace).takeWhile Char.isDigit))
  | _ => none

/-- One backtracking candidate for the greedy captured group of the line
regexp: the group consumes i characters none of which is a colon,
followed by one non-whitespace character. -/
def tryCandidate (cs : List Char) (i : ℕ) : Option (List Char × ℕ) :=
  if (cs.take i).all (fun c => c != ':') then
    match cs.drop i with
    | c :: rs =>
      if c.isWhitespace then none
      else (restMatch rs).map (fun v => (cs.take (i + 1), v))
    | [] => none
  else none

/-- Greedy backtracking over the candidate group lengths, longest
first, exactly as the regexp engine tries them. -/
def tryMatch (cs : List Char) : ℕ → Option (List Char × ℕ)
  | 0 => none
  | i + 1 =>
    match tryCandidate cs (i + 1) with
    | some r => some r
    | none => tryMatch cs i

/-- Python re.match of the label-colon-integer pattern against one
line, returning the label group and the integer group. -/
def reMatchLine (s : String) : Option (String × ℕ) :=
  (tryMatch s.data (s.data.length - 1)).map (fun g => (String.mk g.1, g.2))

/-- RESULT_KEYS (sfbench.py lines 53-57) as a label to field-name
lookup; a none result is a Python KeyError at line 83. -/
def resultKey (label : String) : Option String :=
  if label = "Nodes/second" then some "nps"
  else if label = "Nodes searched" then some "nodes_searched"
  else if label = "Total time (ms)" then some "total_time_ms"
  else none

/-- The mutable vals mapping of sfbench.run_benchmark, one optional slot
per recognized field. -/
structure SFVals where
  nps : Option ℕ
  nodes_searched : Option ℕ
  total_time_ms : Option ℕ
deriving DecidableEq

/-- Assignment vals[field] = v for the three recognized field names. -/
def setVal (vals : SFVals) (field : String) (v : ℕ) : SFVals :=
  if field = "nps" then { vals with nps := some v }
  else if field = "nodes_searched" then { vals with nodes_searched := some v }
  else if field = "total_time_ms" then { vals with total_time_ms := some v }
  else vals

/-- The scan of sfbench.run_benchmark lines 78-83 over the reversed
output lines: stop at the first non-matching line; a matched line whose
label is not in RESULT_KEYS raises KeyError. -/
def parseValsLoop : List String → SFVals → Except String SFVals
  | [], vals => .ok vals
  | line :: rest, vals =>
    match reMatchLine line with
    | none => .ok vals
    | some kv =>
      match resultKey kv.1 with
      | none => .error ("KeyError: " ++ kv.1)
      | some field => parseValsLoop rest (setVal vals field kv.2)

/-- The parsing stage of sfbench.run_benchmark (lines 77-84): scan the
trailing block bottom-up, then construct the BenchResult; a missing
required field is the MissingMetric failure (a Python TypeError at the
BenchResult call). -/
def parse_bench_output (lines : List String) (t : ℤ) : Except String BenchResult :=
  match parseValsLoop lines.reverse { nps := none, nodes_searched := none, total_time_ms := none } with
  | .error e => .error e
  | .ok vals =>
    match vals.nps, vals.nodes_searched, vals.total_time_ms with
    | some a, some b, some c =>
      .ok { nps := (a : ℚ), nodes_searched := (b : ℚ), total_time_ms := (c : ℚ), time := t }
    | _, _, _ => .error "MissingMetric"

/-- Python dict insert-or-overwrite, preserving key order. -/
def dictInsert (d : List (String × ℕ)) (k : String) (v : ℕ) : List (String × ℕ) :=
  match d with
  | [] => [(k, v)]
  | (k0, v0) :: rest =>
    if k0 = k then (k0, v) :: rest else (k0, v0) :: dictInsert rest k v

/-- The scan of benchmark.run_benchmark (benchmark.py lines 36-44):
every matched label is absorbed into the raw mapping, recognized or
not, until the first non-matching line. -/
def parseRawLoop : List String → List (String × ℕ) → List (String × ℕ)
  | [], acc => acc
  | line :: rest, acc =>
    match reMatchLine line with
    | none => acc
    | some kv => parseRawLoop rest (dictInsert acc kv.1 kv.2)

/-- benchmark.run_benchmark parsing stage: the raw label-to-integer
mapping of the trailing block. -/
def run_benchmark_raw (lines : List String) : List (String × ℕ) :=
  parseRawLoop lines.reverse []

/-- Failure modes of one benchmark invocation as seen by run_series: the
subprocess exited non-zero (subprocess.CalledProcessError, the only
exception run_series catches), or a parsing exception escaped
run_benchmark (KeyError or the MissingMetric TypeError). -/
inductive RunError where
  | calledProcessError
  | parseError (msg : String)
deriving DecidableEq

/-- The result table of run_series: configuration to collected results,
keys in insertion order (the defaultdict of sfbench.py line 116). -/
abbrev Table := List (BenchParams × List BenchResult)

/-- Reading the table at a key. -/
def lookupTable : Table → BenchParams → Option (List BenchResult)
  | [], _ => none
  | (q, w) :: rest, p => if q = p then some w else lookupTable rest p

/-- Writing the table at a key: overwrite in place, or append a new key
at the end, as a Python dict does. -/
def setTable : Table → BenchParams → List BenchResult → Table
  | [], p, v => [(p, v)]
  | (q, w) :: rest, p, v =>
    if q = p then (q, v) :: rest else (q, w) :: setTable rest p v

/-- Loop state of run_series: the result table, the best-so-far tracker
and the consecutive failures-to-improve counter. -/
structure SweepState where
  results : Table
  best : BenchResult
  failures : ℕ

/-- An abstract single-run executor: given a configuration and the
repetition index (the number of results already collected for that
configuration when run_benchmark is called), the outcome the call
produces. -/
abbrev BenchExec := BenchParams → ℕ → Except RunError BenchResult

/-- An executor whose every invocation succeeds. -/
def benchOfTotal (f : BenchParams → ℕ → BenchResult) : BenchExec :=
  fun p i => .ok (f p i)

/-- The executor actually used by the program: run a subprocess (none
models a non-zero exit) and parse its output lines at the completion
instant given by the clock. -/
def run_benchmark (subproc : BenchParams → ℕ → Option (List String))
    (clock : BenchParams → ℕ → ℤ) : BenchExec :=
  fun p i =>
    match subproc p i with
    | none => .error .calledProcessError
    | some lines =>
      match parse_bench_output lines (clock p i) with
      | .ok r => .ok r
      | .error m => .error (.parseError m)

/-- The inner while loop of run_series (sfbench.py lines 121-128):
repeat the benchmark until the repetition target is reached; a
CalledProcessError sets the failure flag and stops the loop, any other
exception propagates. -/
def collectLoop (bench : BenchExec) (p : BenchParams) (reps : ℕ)
    (acc : List BenchResult) : Except String (Bool × List BenchResult) :=
  if _h : acc.length < reps then
    match bench p acc.length with
    | .ok r => collectLoop bench p reps (acc ++ [r])
    | .error .calledProcessError => .ok (true, acc)
    | .error (.parseError m) => .error m
  else .ok (false, acc)
termination_by reps - acc.length
decreasing_by simp only [List.length_append, List.length_cons, List.length_nil]; omega

/-- Outcome of the body of run_series's for loop for one configuration
(sfbench.py lines 119-140): continue with a new loop state, break out
returning the table, or let an uncaught exception escape. -/
inductive StepResult where
  | next (st : SweepState)
  | stop (tbl : Table)
  | err (msg : String)

/-- The body of run_series's for loop for one configuration. -/
def processConfig (bench : BenchExec) (sp : SeriesParams)
    (force_continue : BenchParams → Bool) (st : SweepState) (p : BenchParams) : StepResult :=
  match collectLoop bench p sp.repetitions ((lookupTable st.results p).getD []) with
  | .error m => .err m
  | .ok fl =>
    let results' := setTable st.results p fl.2
    if fl.1 then .stop results'
    else
      match get_average_result fl.2 with
      | none => .err "StatisticsError"
      | some average =>
        if has_improvement average st.best then
          .next { results := results', best := get_best_values average st.best, failures := 0 }
        else if force_continue p = false ∧ sp.max_failures_to_improve ≤ st.failures + 1 then
          .stop results'
        else
          .next { results := results', best := st.best, failures := st.failures + 1 }

/-- The for loop of run_series over the configuration sequence. -/
def runSeriesAux (bench : BenchExec) (sp : SeriesParams)
    (force_continue : BenchParams → Bool) : List BenchParams → SweepState → Except String Table
  | [], st => .ok st.results
  | p :: rest, st =>
    match processConfig bench sp force_continue st p with
    | .next st' => runSeriesAux bench sp force_continue rest st'
    | .stop tbl => .ok tbl
    | .err m => .error m

/-- run_series (sfbench.py lines 110-142), over a finite configuration
list and with an explicit sweep start time; an error value is an
uncaught Python exception escaping the sweep. -/
def run_series (bench : BenchExec) (sp : SeriesParams)
    (force_continue : BenchParams → Bool) (params_seq : List BenchParams)
    (startTime : ℤ) : Except String Table :=
  runSeriesAux bench sp force_continue params_seq
    { results := [], best := initialBest startTime, failures := 0 }

/-- run_varying_threads (sfbench.py lines 145-161): thread counts 1, 2,
3, ... with fixed tt size and depth, force_continue true below the
min_final_threads bound; the lazy infinite counter is truncated to its
first numConfigs elements. -/
def run_varying_threads (bench : BenchExec) (depth tt_size_mb : ℚ) (sp : SeriesParams)
    (min_final_threads : ℚ) (numConfigs : ℕ) (startTime : ℤ) : Except String Table :=
  run_series bench sp (fun prm => decide (prm.threads < min_final_threads))
    ((List.range numConfigs).map
      (fun t : ℕ => { threads := (t : ℚ) + 1, tt_size_mb := tt_size_mb, depth := depth }))
    startTime

/-- The sequence of loop states (table, best-so-far tracker, failure
counter) that run_series passes through, driven by the same per
configuration step as runSeriesAux. -/
def sweepStates (bench : BenchExec) (sp : SeriesParams)
    (force_continue : BenchParams → Bool) : List BenchParams → SweepState → List SweepState
  | [], st => [st]
  | p :: rest, st =>
    match processConfig bench sp force_continue st p with
    | .next st' => st :: sweepStates bench sp force_continue rest st'
    | .stop _ => [st]
    | .err _ => [st]

/-- Component-wise comparison of two loop states' best-so-far trackers:
the second is at least as good on every metric. -/
def bestLe (s1 s2 : SweepState) : Prop :=
  s1.best.nps ≤ s2.best.nps ∧
    s1.best.nodes_searched ≤ s2.best.nodes_searched ∧
    s2.best.total_time_ms ≤ s1.best.total_time_ms

/-- The list of results a fully successful repetition loop collects for
one configuration: one result per repetition index, in order. -/
def runsList (f : BenchParams → ℕ → BenchResult) (p : BenchParams) (reps : ℕ) :
    List BenchResult :=
  (List.range reps).map (f p)

/-- Helper: the running foldl-max of timestamps is one of the candidate
timestamps. -/
theorem foldl_max_time_mem (rs : List BenchResult) (init : ℤ) :
    rs.foldl (fun acc x => max acc x.time) init ∈ init :: rs.map BenchResult.time := by
  induction rs generalizing init with
  | nil => simp
  | cons y ys ih =>
    have h := ih (max init y.time)
    have hg : List.foldl (fun acc x => max acc x.time) init (y :: ys)
        = List.foldl (fun acc x => max acc x.time) (max init y.time) ys := rfl
    rw [hg]
    rcases List.mem_cons.mp h with h' | h'
    · rw [h']
      rcases max_choice init y.time with hm | hm <;> rw [hm] <;> simp
    · exact List.mem_cons_of_mem _ (List.mem_cons_of_mem _ h')

/-- Helper: the running foldl-max of timestamps bounds the seed and every
element from above. -/
theorem foldl_max_time_le (rs : List BenchResult) (init : ℤ) :
    init ≤ rs.foldl (fun acc x => max acc x.time) init ∧
      ∀ x ∈ rs, x.time ≤ rs.foldl (fun acc x => max acc x.time) init := by
  induction rs generalizing init with
  | nil => simp
  | cons y ys ih =>
    have h := ih (max init y.time)
    refine ⟨le_trans (le_max_left _ _) h.1, ?_⟩
    intro x hx
    rcases List.mem_cons.mp hx with h' | h'
    · subst h'
      exact le_trans (le_max_right _ _) h.1
    · exact h.2 x h'

/-- C1: the improvement test returns true exactly when the aggregate's
nps strictly exceeds the tracker's, or its nodes_searched strictly
exceeds the tracker's, or its total_time_ms is strictly smaller; it is a
pure function of the (aggregate, tracker) pair and any single improving
metric suffices. -/
theorem improvement_test_iff_any_metric (result best_so_far : BenchResult) :
    has_improvement result best_so_far = true ↔
      (best_so_far.nps < result.nps ∨
        best_so_far.nodes_searched < result.nodes_searched ∨
        result.total_time_ms < best_so_far.total_time_ms) := by
  simp [has_improvement, or_assoc]

/-- C5: the aggregated result of a non-empty group is the exact
arithmetic mean of each numeric field and the latest timestamp of the
group, and in particular three raw results with nps 100, 110 and 120
average to nps exactly 110. -/
theorem average_result_is_mean_and_latest_time :
    (∀ (r : BenchResult) (rs : List BenchResult), ∃ a,
      get_average_result (r :: rs) = some a ∧
      a.nps = ((r :: rs).map BenchResult.nps).sum / ((r :: rs).length : ℚ) ∧
      a.nodes_searched = ((r :: rs).map BenchResult.nodes_searched).sum / ((r :: rs).length : ℚ) ∧
      a.total_time_ms = ((r :: rs).map BenchResult.total_time_ms).sum / ((r :: rs).length : ℚ) ∧
      a.time ∈ (r :: rs).map BenchResult.time ∧
      ∀ x ∈ r :: rs, x.time ≤ a.time) ∧
    Option.map BenchResult.nps (get_average_result
      [⟨100, 1, 1, 0⟩, ⟨110, 1, 1, 0⟩, ⟨120, 1, 1, 0⟩]) = some 110 := by
  constructor
  · intro r rs
    refine ⟨_, rfl, rfl, rfl, rfl, ?_, ?_⟩
    · have h := foldl_max_time_mem rs r.time
      simpa using h
    · intro x hx
      have h := foldl_max_time_le rs r.time
      rcases List.mem_cons.mp hx with h' | h'
      · subst h'
        exact h.1
      · exact h.2 x h'
  · norm_num [get_average_result]

/-- Witness for C5 at a concrete one-element group. -/
theorem average_result_is_mean_and_latest_time_witness :
    ∃ a, get_average_result [(⟨100, 1, 1, 0⟩ : BenchResult)] = some a ∧
      a.nps = (([(⟨100, 1, 1, 0⟩ : BenchResult)]).map BenchResult.nps).sum / (1 : ℚ) ∧
      a.nodes_searched = (([(⟨100, 1, 1, 0⟩ : BenchResult)]).map BenchResult.nodes_searched).sum / (1 : ℚ) ∧
      a.total_time_ms = (([(⟨100, 1, 1, 0⟩ : BenchResult)]).map BenchResult.total_time_ms).sum / (1 : ℚ) ∧
      a.time ∈ ([(⟨100, 1, 1, 0⟩ : BenchResult)]).map BenchResult.time ∧
      ∀ x ∈ [(⟨100, 1, 1, 0⟩ : BenchResult)], x.time ≤ a.time :=
  average_result_is_mean_and_latest_time.1 ⟨100, 1, 1, 0⟩ []

/-- C8 counterexample: the initial tracker's total_time_ms is the finite
literal 10^12, and a first aggregate whose (finite) total_time_ms equals
that sentinel does not count as an improvement, contradicting the
claimed plus-infinity initialisation. -/
theorem initial_tracker_time_sentinel_cex :
    (initialBest 0).total_time_ms = 1000000000000 ∧
    has_improvement ⟨0, 0, 1000000000000, 0⟩ (initialBest 0) = false := by
  constructor
  · rfl
  · decide

/-- C8 amended: the tracker starts at nps 0, nodes_searched 0,
total_time_ms 10^12 (a large finite sentinel) and the sweep start time,
so any first aggregate whose total_time_ms is below the sentinel counts
as an improvement. -/
theorem initial_tracker_sentinel (t : ℤ) :
    initialBest t = ⟨0, 0, 1000000000000, t⟩ ∧
    ∀ a : BenchResult, a.total_time_ms < 1000000000000 →
      has_improvement a (initialBest t) = true := by
  refine ⟨rfl, fun a ha => ?_⟩
  have hd : decide (a.total_time_ms < (initialBest t).total_time_ms) = true := by
    simpa [initialBest] using ha
  simp [has_improvement, hd]

/-- Witness for the amended C8 at a concrete start time and aggregate. -/
theorem initial_tracker_sentinel_witness :
    initialBest 7 = ⟨0, 0, 1000000000000, 7⟩ ∧
    has_improvement ⟨0, 0, 50, 3⟩ (initialBest 7) = true :=
  ⟨(initial_tracker_sentinel 7).1,
   (initial_tracker_sentinel 7).2 ⟨0, 0, 50, 3⟩ (by norm_num)⟩

/-- C10: when the two results have equal nps, the component-wise best
combination takes its time from the second argument (the previous
tracker in run_series), while nodes_searched and total_time_ms are still
combined by max and min. -/
theorem best_values_time_on_equal_nps (r1 r2 : BenchResult) (h : r1.nps = r2.nps) :
    (get_best_values r1 r2).time = r2.time ∧
    (get_best_values r1 r2).nps = r2.nps ∧
    (get_best_values r1 r2).nodes_searched = max r1.nodes_searched r2.nodes_searched ∧
    (get_best_values r1 r2).total_time_ms = min r1.total_time_ms r2.total_time_ms := by
  refine ⟨?_, ?_, rfl, rfl⟩
  · simp [get_best_values, h]
  · simp [get_best_values, h]

/-- Witness for C10 at two concrete results with equal nps. -/
theorem best_values_time_on_equal_nps_witness :
    (get_best_values ⟨5, 1, 9, 10⟩ ⟨5, 3, 2, 20⟩).time = 20 ∧
    (get_best_values ⟨5, 1, 9, 10⟩ ⟨5, 3, 2, 20⟩).nps = 5 ∧
    (get_best_values ⟨5, 1, 9, 10⟩ ⟨5, 3, 2, 20⟩).nodes_searched = max 1 3 ∧
    (get_best_values ⟨5, 1, 9, 10⟩ ⟨5, 3, 2, 20⟩).total_time_ms = min 9 2 :=
  best_values_time_on_equal_nps ⟨5, 1, 9, 10⟩ ⟨5, 3, 2, 20⟩ rfl

/-- Helper: dict insertion preserves the presence of every existing
key. -/
theorem dictInsert_key_mem (d : List (String × ℕ)) (k : String) (v : ℕ) (x : String)
    (hx : x ∈ d.map Prod.fst) : x ∈ (dictInsert d k v).map Prod.fst := by
  induction d with
  | nil => simp at hx
  | cons hd tl ih =>
    rcases hd with ⟨k0, v0⟩
    simp only [List.map_cons, List.mem_cons] at hx
    by_cases h0 : k0 = k
    · simp only [dictInsert, if_pos h0, List.map_cons, List.mem_cons]
      exact hx
    · simp only [dictInsert, if_neg h0, List.map_cons, List.mem_cons]
      rcases hx with h' | h'
      · exact Or.inl h'
      · exact Or.inr (ih h')

/-- Helper: the raw scan never drops a key already in its
accumulator. -/
theorem parseRawLoop_key_mem (ls : List String) (acc : List (String × ℕ)) (x : String)
    (hx : x ∈ acc.map Prod.fst) : x ∈ (parseRawLoop ls acc).map Prod.fst := by
  induction ls generalizing acc with
  | nil => simpa [parseRawLoop] using hx
  | cons line rest ih =>
    cases hm : reMatchLine line with
    | none => simpa [parseRawLoop, hm] using hx
    | some kv =>
      simp only [parseRawLoop, hm]
      exact ih _ (dictInsert_key_mem _ _ _ _ hx)

/-- C9 counterexample: with an unrecognized label inside the trailing
block, the sfbench metric parser fails on that very line with a
KeyError, instead of silently absorbing it. -/
theorem unrecognized_label_key_error_cex :
    parse_bench_output
      ["bench info", "Unknown thing : 7", "Nodes/second : 12345",
       "Nodes searched : 999", "Total time (ms) : 80"] 0
      = Except.error "KeyError: Unknown thing" := by rfl

/-- C9 amended: a matched line with an unrecognized label makes the
sfbench parser fail immediately with a KeyError naming the label; only
the raw parser of benchmark.py silently absorbs the label into its
mapping (where it contributes no recognized field). -/
theorem unrecognized_label_behavior (pre : List String) (l k : String) (v : ℕ) (t : ℤ)
    (hm : reMatchLine l = some (k, v)) (hk : resultKey k = none) :
    parse_bench_output (pre ++ [l]) t = Except.error ("KeyError: " ++ k) ∧
    k ∈ (run_benchmark_raw (pre ++ [l])).map Prod.fst := by
  have hrev : (pre ++ [l]).reverse = l :: pre.reverse := by simp
  constructor
  · simp only [parse_bench_output, hrev, parseValsLoop, hm, hk]
  · simp only [run_benchmark_raw, hrev, parseRawLoop, hm]
    exact parseRawLoop_key_mem _ _ _ (by simp [dictInsert])

/-- Witness for the amended C9 at a concrete unrecognized label. -/
theorem unrecognized_label_behavior_witness :
    parse_bench_output ["Unknown thing : 7"] 0 = Except.error ("KeyError: " ++ "Unknown thing") ∧
    "Unknown thing" ∈ (run_benchmark_raw ["Unknown thing : 7"]).map Prod.fst :=
  unrecognized_label_behavior [] "Unknown thing : 7" "Unknown thing" 7 0 (by rfl) (by rfl)

/-- Helper: reading a table at the key just written yields the written
value. -/
theorem lookupTable_setTable_self (t : Table) (p : BenchParams) (v : List BenchResult) :
    lookupTable (setTable t p v) p = some v := by
  induction t with
  | nil => simp [setTable, lookupTable]
  | cons hd tl ih =>
    rcases hd with ⟨q, w⟩
    by_cases hq : q = p
    · simp [setTable, lookupTable, hq]
    · simp [setTable, lookupTable, hq, ih]

/-- Helper: writing a table leaves every other key unchanged. -/
theorem lookupTable_setTable_ne (t : Table) (p q : BenchParams) (v : List BenchResult)
    (h : q ≠ p) : lookupTable (setTable t p v) q = lookupTable t q := by
  induction t with
  | nil => simp [setTable, lookupTable, Ne.symm h]
  | cons hd tl ih =>
    rcases hd with ⟨q0, w⟩
    by_cases hq : q0 = p
    · subst hq
      simp [setTable, lookupTable, Ne.symm h]
    · simp [setTable, lookupTable, hq, ih]

/-- Helper: writing a fresh key appends it at the end of the table. -/
theorem setTable_append_of_fresh (t : Table) (p : BenchParams) (v : List BenchResult)
    (h : lookupTable t p = none) : setTable t p v = t ++ [(p, v)] := by
  induction t with
  | nil => simp [setTable]
  | cons hd tl ih =>
    rcases hd with ⟨q, w⟩
    by_cases hq : q = p
    · simp [lookupTable, hq] at h
    · simp only [lookupTable, if_neg hq] at h
      simp [setTable, hq, ih h]

/-- Helper: a key absent from the front part of an appended table is
looked up in the back part. -/
theorem lookupTable_append_none (t1 t2 : Table) (p : BenchParams)
    (h : lookupTable t1 p = none) : lookupTable (t1 ++ t2) p = lookupTable t2 p := by
  induction t1 with
  | nil => simp
  | cons hd tl ih =>
    rcases hd with ⟨q, w⟩
    by_cases hq : q = p
    · simp [lookupTable, hq] at h
    · simp only [lookupTable, if_neg hq] at h
      simp only [List.cons_append, lookupTable, if_neg hq]
      exact ih h

/-- Helper: the repetition loop under an executor that succeeds on every
needed index collects exactly the missing indexed results. -/
theorem collectLoop_ok (bench : BenchExec) (p : BenchParams) (reps : ℕ)
    (f : BenchParams → ℕ → BenchResult)
    (hb : ∀ i, i < reps → bench p i = .ok (f p i)) :
    ∀ (k : ℕ) (acc : List BenchResult), acc.length + k = reps →
      collectLoop bench p reps acc
        = .ok (false, acc ++ (List.range' acc.length k).map (f p)) := by
  intro k
  induction k with
  | zero =>
    intro acc hacc
    rw [collectLoop, dif_neg (by omega)]
    simp
  | succ n ih =>
    intro acc hacc
    rw [collectLoop, dif_pos (by omega), hb acc.length (by omega)]
    show collectLoop bench p reps (acc ++ [f p acc.length]) = _
    have h2 := ih (acc ++ [f p acc.length])
      (by simp only [List.length_append, List.length_cons, List.length_nil]; omega)
    simp only [List.length_append, List.length_cons, List.length_nil, Nat.add_zero] at h2
    rw [h2, List.range'_succ]
    simp [List.append_assoc]

/-- Helper: the repetition loop over a fully successful executor, started
on the empty accumulator, collects one result per repetition index. -/
theorem collectLoop_runsList (bench : BenchExec) (p : BenchParams) (reps : ℕ)
    (f : BenchParams → ℕ → BenchResult)
    (hb : ∀ i, i < reps → bench p i = .ok (f p i)) :
    collectLoop bench p reps [] = .ok (false, runsList f p reps) := by
  have h := collectLoop_ok bench p reps f hb reps [] (by simp)
  simpa [runsList, List.range_eq_range'] using h

/-- Helper: the repetition loop over a total executor never fails, from
any accumulator. -/
theorem collectLoop_total (f : BenchParams → ℕ → BenchResult) (p : BenchParams)
    (reps : ℕ) (acc : List BenchResult) :
    collectLoop (benchOfTotal f) p reps acc
      = .ok (false, acc ++ (List.range' acc.length (reps - acc.length)).map (f p)) := by
  rcases le_or_lt acc.length reps with h | h
  · exact collectLoop_ok _ p reps f (fun i _ => rfl) (reps - acc.length) acc (by omega)
  · rw [collectLoop, dif_neg (by omega)]
    simp [Nat.sub_eq_zero_of_le h.le]

/-- Helper: averaging any non-empty list succeeds. -/
theorem get_average_result_isSome (l : List BenchResult) (h : l ≠ []) :
    ∃ a, get_average_result l = some a := by
  cases l with
  | nil => exact absurd rfl h
  | cons r rs => exact ⟨_, rfl⟩

/-- Helper: at least one repetition produces a non-empty run list. -/
theorem runsList_ne_nil (f : BenchParams → ℕ → BenchResult) (p : BenchParams)
    (reps : ℕ) (h : 1 ≤ reps) : runsList f p reps ≠ [] := by
  intro hh
  have hlen := congrArg List.length hh
  simp [runsList] at hlen
  omega

/-- Helper: the per-configuration step, on a fresh configuration whose
repetitions all succeed, appends the run list to the table and branches
on the improvement test and the termination check exactly as the source
loop body does. -/
theorem processConfig_ok (bench : BenchExec) (sp : SeriesParams)
    (fc : BenchParams → Bool) (st : SweepState) (p : BenchParams)
    (f : BenchParams → ℕ → BenchResult) (avg : BenchResult)
    (hfresh : lookupTable st.results p = none)
    (hb : ∀ i, i < sp.repetitions → bench p i = .ok (f p i))
    (havg : get_average_result (runsList f p sp.repetitions) = some avg) :
    processConfig bench sp fc st p =
      if has_improvement avg st.best then
        .next { results := st.results ++ [(p, runsList f p sp.repetitions)],
                best := get_best_values avg st.best, failures := 0 }
      else if fc p = false ∧ sp.max_failures_to_improve ≤ st.failures + 1 then
        .stop (st.results ++ [(p, runsList f p sp.repetitions)])
      else
        .next { results := st.results ++ [(p, runsList f p sp.repetitions)],
                best := st.best, failures := st.failures + 1 } := by
  simp only [processConfig, hfresh, Option.getD_none,
    collectLoop_runsList bench p sp.repetitions f hb, havg,
    setTable_append_of_fresh st.results p _ hfresh]
  simp

/-- Helper: the per-configuration step on a fresh configuration whose
first repetition succeeds and whose second raises CalledProcessError
breaks out of the sweep with one retained result. -/
theorem processConfig_fail_second (bench : BenchExec) (sp : SeriesParams)
    (fc : BenchParams → Bool) (st : SweepState) (p : BenchParams) (r0 : BenchResult)
    (hfresh : lookupTable st.results p = none)
    (h2 : 2 ≤ sp.repetitions)
    (hb0 : bench p 0 = .ok r0)
    (hb1 : bench p 1 = .error .calledProcessError) :
    processConfig bench sp fc st p = .stop (st.results ++ [(p, [r0])]) := by
  have hcol : collectLoop bench p sp.repetitions [] = .ok (true, [r0]) := by
    rw [collectLoop, dif_pos (by simp only [List.length_nil]; omega)]
    rw [show ([] : List BenchResult).length = 0 from rfl, hb0]
    show collectLoop bench p sp.repetitions [r0] = _
    rw [collectLoop, dif_pos (by simp only [List.length_cons, List.length_nil]; omega)]
    rw [show ([r0] : List BenchResult).length = 1 from rfl, hb1]
  simp only [processConfig, hfresh, Option.getD_none, hcol,
    setTable_append_of_fresh st.results p _ hfresh]
  simp

/-- Helper: a CalledProcessError on the very first repetition of a fresh
configuration breaks out with the empty partial list retained. -/
theorem processConfig_first_cpe (bench : BenchExec) (sp : SeriesParams)
    (fc : BenchParams → Bool) (st : SweepState) (p : BenchParams)
    (hfresh : lookupTable st.results p = none)
    (h1 : 1 ≤ sp.repetitions)
    (hb : bench p 0 = .error .calledProcessError) :
    processConfig bench sp fc st p = .stop (st.results ++ [(p, [])]) := by
  have hcol : collectLoop bench p sp.repetitions [] = .ok (true, []) := by
    rw [collectLoop, dif_pos (by simp only [List.length_nil]; omega)]
    rw [show ([] : List BenchResult).length = 0 from rfl, hb]
  simp only [processConfig, hfresh, Option.getD_none, hcol,
    setTable_append_of_fresh st.results p _ hfresh]
  simp

/-- Helper: a parse exception on the first repetition of a fresh
configuration escapes the step uncaught. -/
theorem processConfig_first_parseError (bench : BenchExec) (sp : SeriesParams)
    (fc : BenchParams → Bool) (st : SweepState) (p : BenchParams) (m : String)
    (hfresh : lookupTable st.results p = none)
    (h1 : 1 ≤ sp.repetitions)
    (hb : bench p 0 = .error (.parseError m)) :
    processConfig bench sp fc st p = .err m := by
  have hcol : collectLoop bench p sp.repetitions [] = .error m := by
    rw [collectLoop, dif_pos (by simp only [List.length_nil]; omega)]
    rw [show ([] : List BenchResult).length = 0 from rfl, hb]
  simp only [processConfig, hfresh, Option.getD_none, hcol]

/-- C7 counterexample: a MissingMetric-kind failure (a parse exception,
which run_series does not catch) makes the sweep raise instead of
returning the accumulated result table, refuting the claim that both
error kinds still return the table to the caller. -/
theorem parse_error_loses_result_table_cex :
    run_series (fun _ _ => Except.error (RunError.parseError "MissingMetric")) ⟨1, 3⟩
      (fun _ => false) [⟨1, 16, 14⟩] 0 = Except.error "MissingMetric" := by
  have h := processConfig_first_parseError
    (fun _ _ => Except.error (RunError.parseError "MissingMetric")) ⟨1, 3⟩
    (fun _ => false) ⟨[], initialBest 0, 0⟩ ⟨1, 16, 14⟩ "MissingMetric" rfl
    (le_refl 1) rfl
  simp only [run_series, runSeriesAux, h]

/-- C7 amended: an InvocationFailed (CalledProcessError) ends the sweep
early but cleanly, returning the result table with the failed
configuration's partial data and performing no retry; a MissingMetric or
any other parse exception instead propagates out of the sweep uncaught,
so the result table is not returned. -/
theorem failure_kinds_sweep_outcome (bench1 bench2 : BenchExec) (sp : SeriesParams)
    (fc : BenchParams → Bool) (p : BenchParams) (rest : List BenchParams)
    (m : String) (t0 : ℤ)
    (h1 : 1 ≤ sp.repetitions)
    (hcpe : bench1 p 0 = .error .calledProcessError)
    (hpe : bench2 p 0 = .error (.parseError m)) :
    run_series bench1 sp fc (p :: rest) t0 = .ok [(p, [])] ∧
    run_series bench2 sp fc (p :: rest) t0 = .error m := by
  constructor
  · have h := processConfig_first_cpe bench1 sp fc ⟨[], initialBest t0, 0⟩ p rfl h1 hcpe
    simp only [run_series, runSeriesAux, h]
    simp
  · have h := processConfig_first_parseError bench2 sp fc ⟨[], initialBest t0, 0⟩ p m rfl h1 hpe
    simp only [run_series, runSeriesAux, h]

/-- Witness for the amended C7 at concrete failing executors. -/
theorem failure_kinds_sweep_outcome_witness :
    run_series (fun _ _ => Except.error RunError.calledProcessError) ⟨2, 3⟩ (fun _ => true)
      [⟨1, 16, 14⟩] 5 = Except.ok [(⟨1, 16, 14⟩, [])] ∧
    run_series (fun _ _ => Except.error (RunError.parseError "KeyError: x")) ⟨2, 3⟩
      (fun _ => true) [⟨1, 16, 14⟩] 5 = Except.error "KeyError: x" :=
  failure_kinds_sweep_outcome _ _ ⟨2, 3⟩ (fun _ => true) ⟨1, 16, 14⟩ [] "KeyError: x" 5
    (by norm_num) rfl rfl

/-- C2: with max_failures_to_improve 2 and force_continue always false,
if the first configuration's aggregate improves on the initial tracker
and every later aggregate fails to improve on the tracker after the
first step, the sweep consumes exactly three configurations and stops,
returning a table with exactly those three entries. -/
theorem sweep_stops_after_two_failures (f : BenchParams → ℕ → BenchResult)
    (sp : SeriesParams) (t0 : ℤ) (a b c : BenchParams) (rest : List BenchParams)
    (aavg bavg cavg : BenchResult)
    (hmax : sp.max_failures_to_improve = 2)
    (hab : a ≠ b) (hac : a ≠ c) (hbc : b ≠ c)
    (ha : get_average_result (runsList f a sp.repetitions) = some aavg)
    (hbv : get_average_result (runsList f b sp.repetitions) = some bavg)
    (hcv : get_average_result (runsList f c sp.repetitions) = some cavg)
    (himp : has_improvement aavg (initialBest t0) = true)
    (hnb : has_improvement bavg (get_best_values aavg (initialBest t0)) = false)
    (hnc : has_improvement cavg (get_best_values aavg (initialBest t0)) = false) :
    run_series (benchOfTotal f) sp (fun _ => false) (a :: b :: c :: rest) t0
      = .ok [(a, runsList f a sp.repetitions), (b, runsList f b sp.repetitions),
             (c, runsList f c sp.repetitions)] := by
  have h1 := processConfig_ok (benchOfTotal f) sp (fun _ => false)
    ⟨[], initialBest t0, 0⟩ a f aavg rfl (fun i _ => rfl) ha
  have h2 := processConfig_ok (benchOfTotal f) sp (fun _ => false)
    ⟨[(a, runsList f a sp.repetitions)], get_best_values aavg (initialBest t0), 0⟩
    b f bavg (by simp [lookupTable, hab]) (fun i _ => rfl) hbv
  have h3 := processConfig_ok (benchOfTotal f) sp (fun _ => false)
    ⟨[(a, runsList f a sp.repetitions), (b, runsList f b sp.repetitions)],
      get_best_values aavg (initialBest t0), 1⟩
    c f cavg (by simp [lookupTable, hab, hac, hbc]) (fun i _ => rfl) hcv
  rw [if_pos himp] at h1
  rw [if_neg (by simp [hnb])] at h2
  rw [if_neg (by simp [hmax])] at h2
  rw [if_neg (by simp [hnc])] at h3
  rw [if_pos (by simp [hmax])] at h3
  simp only [run_series, runSeriesAux, h1, h2, h3, List.nil_append,
    List.singleton_append, List.cons_append, Nat.zero_add]

/-- Witness for C2 at a concrete executor and three concrete
configurations. -/
theorem sweep_stops_after_two_failures_witness :
    run_series
      (benchOfTotal (fun prm _ =>
        if prm.threads = 1 then ⟨100, 100, 10, 0⟩
        else if prm.threads = 2 then ⟨50, 50, 20, 0⟩ else ⟨40, 40, 30, 0⟩))
      ⟨1, 2⟩ (fun _ => false) [⟨1, 16, 14⟩, ⟨2, 16, 14⟩, ⟨3, 16, 14⟩] 0
      = .ok [(⟨1, 16, 14⟩, runsList (fun prm _ =>
          if prm.threads = 1 then ⟨100, 100, 10, 0⟩
          else if prm.threads = 2 then ⟨50, 50, 20, 0⟩ else ⟨40, 40, 30, 0⟩) ⟨1, 16, 14⟩ 1),
        (⟨2, 16, 14⟩, runsList (fun prm _ =>
          if prm.threads = 1 then ⟨100, 100, 10, 0⟩
          else if prm.threads = 2 then ⟨50, 50, 20, 0⟩ else ⟨40, 40, 30, 0⟩) ⟨2, 16, 14⟩ 1),
        (⟨3, 16, 14⟩, runsList (fun prm _ =>
          if prm.threads = 1 then ⟨100, 100, 10, 0⟩
          else if prm.threads = 2 then ⟨50, 50, 20, 0⟩ else ⟨40, 40, 30, 0⟩) ⟨3, 16, 14⟩ 1)] :=
  sweep_stops_after_two_failures _ ⟨1, 2⟩ 0 ⟨1, 16, 14⟩ ⟨2, 16, 14⟩ ⟨3, 16, 14⟩ []
    ⟨100, 100, 10, 0⟩ ⟨50, 50, 20, 0⟩ ⟨40, 40, 30, 0⟩ rfl
    (by intro h; cases h) (by intro h; cases h) (by intro h; cases h)
    (by norm_num [get_average_result, runsList, List.range_succ])
    (by norm_num [get_average_result, runsList, List.range_succ])
    (by norm_num [get_average_result, runsList, List.range_succ])
    (by decide) (by decide) (by decide)

/-- Helper: after a prefix of fully successful fresh configurations whose
count stays below the hysteresis threshold, a configuration whose second
repetition raises CalledProcessError halts the sweep with exactly one
retained result for it and full repetition lists for the prefix. -/
theorem runSeriesAux_fail_second (bench : BenchExec) (sp : SeriesParams)
    (fc : BenchParams → Bool) (f : BenchParams → ℕ → BenchResult)
    (p : BenchParams) (r0 : BenchResult) (rest : List BenchParams)
    (h2 : 2 ≤ sp.repetitions)
    (hb0 : bench p 0 = .ok r0)
    (hb1 : bench p 1 = .error .calledProcessError) :
    ∀ (pre : List BenchParams) (st : SweepState),
      (pre ++ [p]).Nodup →
      (∀ x ∈ pre ++ [p], lookupTable st.results x = none) →
      st.failures + pre.length < sp.max_failures_to_improve →
      (∀ q ∈ pre, ∀ i, i < sp.repetitions → bench q i = .ok (f q i)) →
      runSeriesAux bench sp fc (pre ++ p :: rest) st
        = .ok (st.results ++ pre.map (fun q => (q, runsList f q sp.repetitions))
            ++ [(p, [r0])]) := by
  intro pre
  induction pre with
  | nil =>
    intro st hnd hfresh hcnt hq
    have hpc := processConfig_fail_second bench sp fc st p r0 (hfresh p (by simp)) h2 hb0 hb1
    simp only [List.nil_append, runSeriesAux, hpc, List.map_nil, List.append_nil]
  | cons q pre' ih =>
    intro st hnd hfresh hcnt hq
    have hfq : lookupTable st.results q = none := hfresh q (by simp)
    have hbq : ∀ i, i < sp.repetitions → bench q i = .ok (f q i) := hq q (by simp)
    obtain ⟨qavg, hqavg⟩ := get_average_result_isSome (runsList f q sp.repetitions)
      (runsList_ne_nil f q sp.repetitions (by omega))
    have hpc := processConfig_ok bench sp fc st q f qavg hfq hbq hqavg
    have hqnotin : q ∉ pre' ++ [p] := by
      simp only [List.cons_append, List.nodup_cons] at hnd
      exact hnd.1
    have hnd' : (pre' ++ [p]).Nodup := by
      simp only [List.cons_append, List.nodup_cons] at hnd
      exact hnd.2
    have hfresh' : ∀ x ∈ pre' ++ [p],
        lookupTable (st.results ++ [(q, runsList f q sp.repetitions)]) x = none := by
      intro x hx
      have hxq : x ≠ q := fun h => hqnotin (h ▸ hx)
      rw [lookupTable_append_none _ _ _ (hfresh x (List.mem_cons_of_mem _ hx))]
      simp [lookupTable, Ne.symm hxq]
    have hq' : ∀ q' ∈ pre', ∀ i, i < sp.repetitions → bench q' i = .ok (f q' i) :=
      fun q' hq'' => hq q' (List.mem_cons_of_mem _ hq'')
    simp only [List.cons_append, runSeriesAux, hpc]
    by_cases himp : has_improvement qavg st.best = true
    · rw [if_pos himp]
      have hrec := ih ⟨st.results ++ [(q, runsList f q sp.repetitions)],
          get_best_values qavg st.best, 0⟩ hnd' hfresh'
        (by simp only [List.length_cons] at hcnt; dsimp only; omega) hq'
      show runSeriesAux bench sp fc (pre' ++ p :: rest)
        ⟨st.results ++ [(q, runsList f q sp.repetitions)], get_best_values qavg st.best, 0⟩ = _
      rw [hrec]
      simp [List.append_assoc]
    · rw [if_neg himp]
      have hstop : ¬(fc q = false ∧ sp.max_failures_to_improve ≤ st.failures + 1) := by
        rintro ⟨-, hle⟩
        simp only [List.length_cons] at hcnt
        omega
      rw [if_neg hstop]
      have hrec := ih ⟨st.results ++ [(q, runsList f q sp.repetitions)],
          st.best, st.failures + 1⟩ hnd' hfresh'
        (by simp only [List.length_cons] at hcnt; dsimp only; omega) hq'
      show runSeriesAux bench sp fc (pre' ++ p :: rest)
        ⟨st.results ++ [(q, runsList f q sp.repetitions)], st.best, st.failures + 1⟩ = _
      rw [hrec]
      simp [List.append_assoc]

/-- C3: if an invocation fails with a non-zero exit on the second
repetition of a configuration the sweep reaches, the sweep terminates
immediately: the returned table holds exactly one result for that
configuration, the full repetition count for every earlier
configuration, and nothing for later configurations. -/
theorem sweep_halts_on_second_repetition_failure (bench : BenchExec) (sp : SeriesParams)
    (fc : BenchParams → Bool) (f : BenchParams → ℕ → BenchResult) (t0 : ℤ)
    (pre : List BenchParams) (p : BenchParams) (rest : List BenchParams) (r0 : BenchResult)
    (h2 : 2 ≤ sp.repetitions)
    (hnd : (pre ++ [p]).Nodup)
    (hlen : pre.length < sp.max_failures_to_improve)
    (hb : ∀ q ∈ pre, ∀ i, i < sp.repetitions → bench q i = .ok (f q i))
    (hb0 : bench p 0 = .ok r0)
    (hb1 : bench p 1 = .error .calledProcessError) :
    run_series bench sp fc (pre ++ p :: rest) t0
      = .ok (pre.map (fun q => (q, runsList f q sp.repetitions)) ++ [(p, [r0])]) := by
  have h := runSeriesAux_fail_second bench sp fc f p r0 rest h2 hb0 hb1 pre
    ⟨[], initialBest t0, 0⟩ hnd (fun x _ => rfl) (by simpa using hlen) hb
  simpa [run_series] using h

/-- Witness for C3 at a concrete executor failing on the second
repetition of the second configuration. -/
theorem sweep_halts_on_second_repetition_failure_witness :
    run_series
      (fun prm i => if i = 0 then Except.ok (⟨100, 10, 5, 0⟩ : BenchResult)
        else if prm.threads = 1 then Except.ok (⟨100, 10, 5, 0⟩ : BenchResult)
        else Except.error RunError.calledProcessError)
      ⟨2, 2⟩ (fun _ => false) [⟨1, 16, 14⟩, ⟨2, 16, 14⟩] 0
      = .ok ([(⟨1, 16, 14⟩ : BenchParams)].map
          (fun q => (q, runsList (fun _ _ => (⟨100, 10, 5, 0⟩ : BenchResult)) q 2))
          ++ [(⟨2, 16, 14⟩, [⟨100, 10, 5, 0⟩])]) :=
  sweep_halts_on_second_repetition_failure _ ⟨2, 2⟩ (fun _ => false)
    (fun _ _ => ⟨100, 10, 5, 0⟩) 0 [⟨1, 16, 14⟩] ⟨2, 16, 14⟩ [] ⟨100, 10, 5, 0⟩
    (le_refl 2) (by decide) (by decide)
    (by
      intro q hq i hi
      simp only [List.mem_singleton] at hq
      subst hq
      by_cases h0 : i = 0 <;> simp [h0])
    rfl (by norm_num)

/-- Helper: under a fully successful executor the sweep always returns a
table, and any table entry whose key is not among the remaining
configurations survives to the returned table. -/
theorem runSeriesAux_total_ok (f : BenchParams → ℕ → BenchResult) (sp : SeriesParams)
    (fc : BenchParams → Bool) (h1 : 1 ≤ sp.repetitions) :
    ∀ (ps : List BenchParams) (st : SweepState),
      ∃ T, runSeriesAux (benchOfTotal f) sp fc ps st = .ok T ∧
        ∀ x v, x ∉ ps → lookupTable st.results x = some v → lookupTable T x = some v := by
  intro ps
  induction ps with
  | nil =>
    intro st
    exact ⟨st.results, rfl, fun x v _ h => h⟩
  | cons p rest ih =>
    intro st
    have hcol := collectLoop_total f p sp.repetitions ((lookupTable st.results p).getD [])
    set lst := (lookupTable st.results p).getD [] ++
      (List.range' ((lookupTable st.results p).getD []).length
        (sp.repetitions - ((lookupTable st.results p).getD []).length)).map (f p) with hlst
    have hne : lst ≠ [] := by
      intro hh
      have hl := congrArg List.length hh
      simp only [hlst, List.length_append, List.length_map, List.length_range',
        List.length_nil] at hl
      omega
    obtain ⟨avg, havg⟩ := get_average_result_isSome lst hne
    have hpc : processConfig (benchOfTotal f) sp fc st p =
        if has_improvement avg st.best then
          .next ⟨setTable st.results p lst, get_best_values avg st.best, 0⟩
        else if fc p = false ∧ sp.max_failures_to_improve ≤ st.failures + 1 then
          .stop (setTable st.results p lst)
        else .next ⟨setTable st.results p lst, st.best, st.failures + 1⟩ := by
      simp only [processConfig, hcol, havg]
      simp
    by_cases himp : has_improvement avg st.best = true
    · have hstep : runSeriesAux (benchOfTotal f) sp fc (p :: rest) st
          = runSeriesAux (benchOfTotal f) sp fc rest
            ⟨setTable st.results p lst, get_best_values avg st.best, 0⟩ := by
        rw [runSeriesAux, hpc, if_pos himp]
      obtain ⟨T, hT, hpres⟩ := ih ⟨setTable st.results p lst, get_best_values avg st.best, 0⟩
      refine ⟨T, hstep.trans hT, ?_⟩
      intro x v hx hv
      have hxp : x ≠ p := fun h => hx (h ▸ List.mem_cons_self p rest)
      have hxrest : x ∉ rest := fun h => hx (List.mem_cons_of_mem _ h)
      apply hpres x v hxrest
      dsimp only
      rw [lookupTable_setTable_ne _ _ _ _ hxp]
      exact hv
    · by_cases hstop : fc p = false ∧ sp.max_failures_to_improve ≤ st.failures + 1
      · have hstep : runSeriesAux (benchOfTotal f) sp fc (p :: rest) st
            = .ok (setTable st.results p lst) := by
          rw [runSeriesAux, hpc, if_neg himp, if_pos hstop]
        refine ⟨setTable st.results p lst, hstep, ?_⟩
        intro x v hx hv
        have hxp : x ≠ p := fun h => hx (h ▸ List.mem_cons_self p rest)
        rw [lookupTable_setTable_ne _ _ _ _ hxp]
        exact hv
      · have hstep : runSeriesAux (benchOfTotal f) sp fc (p :: rest) st
            = runSeriesAux (benchOfTotal f) sp fc rest
              ⟨setTable st.results p lst, st.best, st.failures + 1⟩ := by
          rw [runSeriesAux, hpc, if_neg himp, if_neg hstop]
        obtain ⟨T, hT, hpres⟩ := ih ⟨setTable st.results p lst, st.best, st.failures + 1⟩
        refine ⟨T, hstep.trans hT, ?_⟩
        intro x v hx hv
        have hxp : x ≠ p := fun h => hx (h ▸ List.mem_cons_self p rest)
        have hxrest : x ∉ rest := fun h => hx (List.mem_cons_of_mem _ h)
        apply hpres x v hxrest
        dsimp only
        rw [lookupTable_setTable_ne _ _ _ _ hxp]
        exact hv

/-- Helper: under a fully successful executor, a prefix of fresh
configurations on which force_continue is true can never stop the sweep,
so a later fresh configuration p is always reached, benchmarked for the
full repetition count, and its entry survives to the returned table. -/
theorem runSeriesAux_forced (f : BenchParams → ℕ → BenchResult) (sp : SeriesParams)
    (fc : BenchParams → Bool) (p : BenchParams) (h1 : 1 ≤ sp.repetitions) :
    ∀ (qs : List BenchParams) (rest : List BenchParams) (st : SweepState),
      (∀ q ∈ qs, fc q = true) →
      qs.Nodup →
      p ∉ qs →
      p ∉ rest →
      (∀ x ∈ qs, lookupTable st.results x = none) →
      lookupTable st.results p = none →
      ∃ T, runSeriesAux (benchOfTotal f) sp fc (qs ++ p :: rest) st = .ok T ∧
        lookupTable T p = some (runsList f p sp.repetitions) := by
  intro qs
  induction qs with
  | nil =>
    intro rest st _ _ _ hprest _ hfp
    obtain ⟨avg, havg⟩ := get_average_result_isSome _ (runsList_ne_nil f p _ h1)
    have hpc := processConfig_ok (benchOfTotal f) sp fc st p f avg hfp (fun i _ => rfl) havg
    have hself : lookupTable (st.results ++ [(p, runsList f p sp.repetitions)]) p
        = some (runsList f p sp.repetitions) := by
      rw [lookupTable_append_none _ _ _ hfp]
      simp [lookupTable]
    rw [List.nil_append]
    by_cases himp : has_improvement avg st.best = true
    · have hstep : runSeriesAux (benchOfTotal f) sp fc (p :: rest) st
          = runSeriesAux (benchOfTotal f) sp fc rest
            ⟨st.results ++ [(p, runsList f p sp.repetitions)],
              get_best_values avg st.best, 0⟩ := by
        rw [runSeriesAux, hpc, if_pos himp]
      obtain ⟨T, hT, hpres⟩ := runSeriesAux_total_ok f sp fc h1 rest
        ⟨st.results ++ [(p, runsList f p sp.repetitions)], get_best_values avg st.best, 0⟩
      exact ⟨T, hstep.trans hT, hpres p _ hprest hself⟩
    · by_cases hstop : fc p = false ∧ sp.max_failures_to_improve ≤ st.failures + 1
      · have hstep : runSeriesAux (benchOfTotal f) sp fc (p :: rest) st
            = .ok (st.results ++ [(p, runsList f p sp.repetitions)]) := by
          rw [runSeriesAux, hpc, if_neg himp, if_pos hstop]
        exact ⟨_, hstep, hself⟩
      · have hstep : runSeriesAux (benchOfTotal f) sp fc (p :: rest) st
            = runSeriesAux (benchOfTotal f) sp fc rest
              ⟨st.results ++ [(p, runsList f p sp.repetitions)],
                st.best, st.failures + 1⟩ := by
          rw [runSeriesAux, hpc, if_neg himp, if_neg hstop]
        obtain ⟨T, hT, hpres⟩ := runSeriesAux_total_ok f sp fc h1 rest
          ⟨st.results ++ [(p, runsList f p sp.repetitions)], st.best, st.failures + 1⟩
        exact ⟨T, hstep.trans hT, hpres p _ hprest hself⟩
  | cons q qs' ih =>
    intro rest st hfc hnd hpqs hprest hfresh hfp
    obtain ⟨qavg, hqavg⟩ := get_average_result_isSome _ (runsList_ne_nil f q _ h1)
    have hpc := processConfig_ok (benchOfTotal f) sp fc st q f qavg (hfresh q (by simp))
      (fun i _ => rfl) hqavg
    have hfcq : fc q = true := hfc q (by simp)
    have hqp : p ≠ q := fun h => hpqs (h ▸ List.mem_cons_self q qs')
    have hnd' : qs'.Nodup := (List.nodup_cons.mp hnd).2
    have hqnotqs' : q ∉ qs' := (List.nodup_cons.mp hnd).1
    have hpqs' : p ∉ qs' := fun h => hpqs (List.mem_cons_of_mem _ h)
    have hfresh' : ∀ x ∈ qs',
        lookupTable (st.results ++ [(q, runsList f q sp.repetitions)]) x = none := by
      intro x hx
      have hxq : x ≠ q := fun h => hqnotqs' (h ▸ hx)
      rw [lookupTable_append_none _ _ _ (hfresh x (List.mem_cons_of_mem _ hx))]
      simp [lookupTable, Ne.symm hxq]
    have hfp' : lookupTable (st.results ++ [(q, runsList f q sp.repetitions)]) p = none := by
      rw [lookupTable_append_none _ _ _ hfp]
      simp [lookupTable, Ne.symm hqp]
    have hfc' : ∀ x ∈ qs', fc x = true := fun x hx => hfc x (List.mem_cons_of_mem _ hx)
    simp only [List.cons_append]
    by_cases himp : has_improvement qavg st.best = true
    · have hstep : runSeriesAux (benchOfTotal f) sp fc (q :: (qs' ++ p :: rest)) st
          = runSeriesAux (benchOfTotal f) sp fc (qs' ++ p :: rest)
            ⟨st.results ++ [(q, runsList f q sp.repetitions)],
              get_best_values qavg st.best, 0⟩ := by
        rw [runSeriesAux, hpc, if_pos himp]
      obtain ⟨T, hT, hTp⟩ := ih rest ⟨st.results ++ [(q, runsList f q sp.repetitions)],
        get_best_values qavg st.best, 0⟩ hfc' hnd' hpqs' hprest hfresh' hfp'
      exact ⟨T, hstep.trans hT, hTp⟩
    · have hstop : ¬(fc q = false ∧ sp.max_failures_to_improve ≤ st.failures + 1) := by
        rintro ⟨hq0, -⟩
        rw [hfcq] at hq0
        cases hq0
      have hstep : runSeriesAux (benchOfTotal f) sp fc (q :: (qs' ++ p :: rest)) st
          = runSeriesAux (benchOfTotal f) sp fc (qs' ++ p :: rest)
            ⟨st.results ++ [(q, runsList f q sp.repetitions)],
              st.best, st.failures + 1⟩ := by
        rw [runSeriesAux, hpc, if_neg himp, if_neg hstop]
      obtain ⟨T, hT, hTp⟩ := ih rest ⟨st.results ++ [(q, runsList f q sp.repetitions)],
        st.best, st.failures + 1⟩ hfc' hnd' hpqs' hprest hfresh' hfp'
      exact ⟨T, hstep.trans hT, hTp⟩

/-- C6: with force_continue true exactly below 8 threads and a fully
successful executor, a thread sweep over at least 8 configurations
always reaches the 8-thread configuration: whatever non-improvements
occur earlier, the returned table holds its full repetition list. -/
theorem force_continue_reaches_min_threads (f : BenchParams → ℕ → BenchResult)
    (depth tt : ℚ) (sp : SeriesParams) (t0 : ℤ) (N : ℕ)
    (h1 : 1 ≤ sp.repetitions) (hN : 8 ≤ N) :
    ∃ T, run_varying_threads (benchOfTotal f) depth tt sp 8 N t0 = .ok T ∧
      lookupTable T ⟨8, tt, depth⟩ = some (runsList f ⟨8, tt, depth⟩ sp.repetitions) := by
  have hsplit : ((List.range N).map (fun tn : ℕ =>
        ({ threads := (tn : ℚ) + 1, tt_size_mb := tt, depth := depth } : BenchParams)))
      = ((List.range 7).map (fun tn : ℕ =>
          ({ threads := (tn : ℚ) + 1, tt_size_mb := tt, depth := depth } : BenchParams)))
        ++ ({ threads := 8, tt_size_mb := tt, depth := depth } : BenchParams)
          :: ((List.range (N - 8)).map (fun i : ℕ =>
            ({ threads := ((8 + i : ℕ) : ℚ) + 1, tt_size_mb := tt,
               depth := depth } : BenchParams))) := by
    conv_lhs => rw [show N = 8 + (N - 8) by omega, List.range_add,
      show List.range 8 = List.range 7 ++ [7] from rfl]
    simp only [List.map_append, List.map_cons, List.map_map, List.cons_append,
      List.nil_append, List.append_assoc, List.singleton_append, Function.comp]
    norm_num
  have hinj : Function.Injective (fun tn : ℕ =>
      ({ threads := (tn : ℚ) + 1, tt_size_mb := tt, depth := depth } : BenchParams)) := by
    intro t1 t2 h
    have hth := congrArg BenchParams.threads h
    simp only at hth
    have h2 : (t1 : ℚ) = (t2 : ℚ) := by linarith
    exact_mod_cast h2
  have hfc : ∀ q ∈ (List.range 7).map (fun tn : ℕ =>
      ({ threads := (tn : ℚ) + 1, tt_size_mb := tt, depth := depth } : BenchParams)),
      (fun prm => decide (prm.threads < (8 : ℚ))) q = true := by
    intro q hq
    simp only [List.mem_map, List.mem_range] at hq
    obtain ⟨tn, htn, rfl⟩ := hq
    simp only [decide_eq_true_eq]
    have hc : (tn : ℚ) < 7 := by exact_mod_cast htn
    linarith
  have hndup : ((List.range 7).map (fun tn : ℕ =>
      ({ threads := (tn : ℚ) + 1, tt_size_mb := tt, depth := depth } : BenchParams))).Nodup :=
    (List.nodup_range 7).map hinj
  have hp1 : ({ threads := 8, tt_size_mb := tt, depth := depth } : BenchParams)
      ∉ (List.range 7).map (fun tn : ℕ =>
        ({ threads := (tn : ℚ) + 1, tt_size_mb := tt, depth := depth } : BenchParams)) := by
    intro hmem
    simp only [List.mem_map, List.mem_range] at hmem
    obtain ⟨tn, htn, heq⟩ := hmem
    have hth := congrArg BenchParams.threads heq
    simp only at hth
    have h7 : (tn : ℚ) = 7 := by linarith
    have h7' : tn = 7 := by exact_mod_cast h7
    omega
  have hp2 : ({ threads := 8, tt_size_mb := tt, depth := depth } : BenchParams)
      ∉ (List.range (N - 8)).map (fun i : ℕ =>
        ({ threads := ((8 + i : ℕ) : ℚ) + 1, tt_size_mb := tt,
           depth := depth } : BenchParams)) := by
    intro hmem
    simp only [List.mem_map, List.mem_range] at hmem
    obtain ⟨i, hi, heq⟩ := hmem
    have hth := congrArg BenchParams.threads heq
    simp only at hth
    have h7 : ((8 + i : ℕ) : ℚ) = 7 := by linarith
    have h7' : 8 + i = 7 := by exact_mod_cast h7
    omega
  obtain ⟨T, hT, hTp⟩ := runSeriesAux_forced f sp
    (fun prm => decide (prm.threads < (8 : ℚ)))
    ⟨8, tt, depth⟩ h1
    ((List.range 7).map (fun tn : ℕ =>
      ({ threads := (tn : ℚ) + 1, tt_size_mb := tt, depth := depth } : BenchParams)))
    ((List.range (N - 8)).map (fun i : ℕ =>
      ({ threads := ((8 + i : ℕ) : ℚ) + 1, tt_size_mb := tt, depth := depth } : BenchParams)))
    ⟨[], initialBest t0, 0⟩
    hfc hndup hp1 hp2 (fun x _ => rfl) rfl
  refine ⟨T, ?_, hTp⟩
  simp only [run_varying_threads, run_series]
  rw [hsplit]
  exact hT

/-- Witness for C6 at a concrete executor and exactly eight
configurations. -/
theorem force_continue_reaches_min_threads_witness :
    ∃ T, run_varying_threads (benchOfTotal (fun _ _ => ⟨1, 1, 1, 0⟩)) 14 16 ⟨1, 2⟩ 8 8 0
        = .ok T ∧
      lookupTable T ⟨8, 16, 14⟩
        = some (runsList (fun _ _ => (⟨1, 1, 1, 0⟩ : BenchResult)) ⟨8, 16, 14⟩ 1) :=
  force_continue_reaches_min_threads (fun _ _ => ⟨1, 1, 1, 0⟩) 14 16 ⟨1, 2⟩ 0 8
    (le_refl 1) (le_refl 8)

/-- Helper: whenever the loop body continues the sweep, the best-so-far
tracker moves only in improving directions: nps and nodes_searched do
not decrease and total_time_ms does not increase. -/
theorem processConfig_next_bestLe (bench : BenchExec) (sp : SeriesParams)
    (fc : BenchParams → Bool) (st : SweepState) (p : BenchParams) (st' : SweepState)
    (h : processConfig bench sp fc st p = .next st') :
    st.best.nps ≤ st'.best.nps ∧ st.best.nodes_searched ≤ st'.best.nodes_searched ∧
      st'.best.total_time_ms ≤ st.best.total_time_ms := by
  unfold processConfig at h
  split at h
  · exact StepResult.noConfusion h
  · split at h
    · exact StepResult.noConfusion h
    · split at h
      · exact StepResult.noConfusion h
      · split at h
        · cases h
          exact ⟨le_max_right _ _, le_max_right _ _, min_le_right _ _⟩
        · split at h
          · exact StepResult.noConfusion h
          · cases h
            exact ⟨le_refl _, le_refl _, le_refl _⟩

/-- Helper: the loop states visited by the sweep are pairwise ordered by
component-wise tracker improvement, and all dominate the starting
state. -/
theorem sweepStates_pairwise_aux (bench : BenchExec) (sp : SeriesParams)
    (fc : BenchParams → Bool) :
    ∀ (ps : List BenchParams) (st : SweepState),
      (sweepStates bench sp fc ps st).Pairwise bestLe ∧
        ∀ s ∈ sweepStates bench sp fc ps st, bestLe st s := by
  intro ps
  induction ps with
  | nil =>
    intro st
    constructor
    · simp [sweepStates]
    · intro s hs
      simp only [sweepStates, List.mem_singleton] at hs
      subst hs
      exact ⟨le_refl _, le_refl _, le_refl _⟩
  | cons p rest ih =>
    intro st
    cases hc : processConfig bench sp fc st p with
    | next st' =>
      have hmono := processConfig_next_bestLe bench sp fc st p st' hc
      have hih := ih st'
      have hall : ∀ s ∈ sweepStates bench sp fc rest st', bestLe st s := by
        intro s hs
        have h1 := hih.2 s hs
        exact ⟨le_trans hmono.1 h1.1, le_trans hmono.2.1 h1.2.1,
          le_trans h1.2.2 hmono.2.2⟩
      constructor
      · simp only [sweepStates, hc]
        exact List.Pairwise.cons hall hih.1
      · intro s hs
        simp only [sweepStates, hc, List.mem_cons] at hs
        rcases hs with hs | hs
        · subst hs
          exact ⟨le_refl _, le_refl _, le_refl _⟩
        · exact hall s hs
    | stop tbl =>
      constructor
      · simp [sweepStates, hc]
      · intro s hs
        simp only [sweepStates, hc, List.mem_singleton] at hs
        subst hs
        exact ⟨le_refl _, le_refl _, le_refl _⟩
    | err m =>
      constructor
      · simp [sweepStates, hc]
      · intro s hs
        simp only [sweepStates, hc, List.mem_singleton] at hs
        subst hs
        exact ⟨le_refl _, le_refl _, le_refl _⟩

/-- C4: over any sweep, the best-so-far tracker is component-wise
monotone: at every visited loop state, nps and nodes_searched are at
least their values at every earlier state, and total_time_ms is at most
its value at every earlier state. -/
theorem best_tracker_monotone_over_sweep (bench : BenchExec) (sp : SeriesParams)
    (fc : BenchParams → Bool) (ps : List BenchParams) (st : SweepState) :
    (sweepStates bench sp fc ps st).Pairwise bestLe :=
  (sweepStates_pairwise_aux bench sp fc ps st).1
